import Mathlib

/-!
Verification of the annotation analyzer (scripts/analyzer/analyzer.py).

The development shallowly embeds the data model and the operations of the
analyzer: the annotation expression grammar (the node kinds the analyzer
distinguishes), the leaf-counting classifier handle_annotation_basic, the
base-type resolver get_base_type, and the declaration walker
(visit_FunctionDef / visit_AnnAssign / visit_Assign) threading the
AnnotationAnalyzer state explicitly.  Machine integers do not overflow in
the source (Python), so counters are Nat.
-/

/-- Constant values that can appear in an annotation expression or as a
returned literal (models the payload of ast.Constant; the analyzer only ever
distinguishes the None constant from everything else). -/
inductive ConstVal where
  | vNone
  | vBool (b : Bool)
  | vInt (n : Int)
  | vStr (s : String)
  | vEllipsis
  deriving DecidableEq

/-- Unary operator kinds (models ast.USub, ast.Invert, and any other). -/
inductive UnOpKind where
  | uSub
  | uInvert
  | uOther
  deriving DecidableEq

/-- Binary operator kinds (models ast.BitOr, the union-via-bar operator, and
any other binary operator). -/
inductive BinOpKind where
  | bitOr
  | otherOp
  deriving DecidableEq

/-- Annotation expression trees: the node kinds enumerated by the analyzer's
TAnnotation union (ast.Name, ast.Constant, ast.Subscript, ast.Attribute,
ast.BinOp, ast.Call, ast.Slice, ast.Tuple, ast.List, ast.UnaryOp, and the
anomalous kinds ast.BoolOp, ast.Dict, ast.Set, ast.IfExp, ast.Lambda,
ast.Compare, ast.JoinedStr).  The constructor attrAccess models
ast.Attribute (the word itself is a Lean keyword), lambdaLit models
ast.Lambda and setLit models ast.Set. -/
inductive Annot where
  | name (id : String)
  | constant (value : ConstVal)
  | subscript (value : Annot) (slice : Annot)
  | attrAccess (value : Annot) (attr : String)
  | binOp (left : Annot) (op : BinOpKind) (right : Annot)
  | call (func : Annot) (args : List Annot)
  | slice (lower upper step : Option Annot)
  | tuple (elts : List Annot)
  | list (elts : List Annot)
  | unaryOp (op : UnOpKind) (operand : Annot)
  | boolOp (values : List Annot)
  | dict (keys : List Annot) (values : List Annot)
  | setLit (elts : List Annot)
  | ifExp (test : Annot) (body : Annot) (orelse : Annot)
  | lambdaLit (body : Annot)
  | compare (left : Annot) (comparators : List Annot)
  | joinedStr (values : List Annot)

mutual

/-- AnnotationAnalyzer.handle_annotation_basic: count the number of type
leaves in an annotation, threading the last_count accumulator explicitly
(the source mutates self.last_count).  The final wildcard mirrors the
source's if/elif chain having no else branch: every unlisted node kind
falls through and leaves the accumulator unchanged. -/
def handle_annotation_basic : Annot → Nat → Nat
  | .name _, last_count => last_count + 1
  | .constant _, last_count => last_count + 1
  | .subscript v s, last_count =>
      handle_annotation_basic s (handle_annotation_basic v last_count)
  | .attrAccess v _, last_count => handle_annotation_basic v last_count
  | .binOp l _ r, last_count =>
      handle_annotation_basic r (handle_annotation_basic l last_count)
  | .call f _, last_count => handle_annotation_basic f last_count
  | .slice lo hi _, last_count =>
      handle_annot_opt hi (handle_annot_opt lo last_count)
  | .tuple elts, last_count => handle_annot_list elts last_count
  | .list elts, last_count => handle_annot_list elts last_count
  | .unaryOp _ x, last_count => handle_annotation_basic x last_count
  | _, last_count => last_count

/-- The two `if annotation.lower / annotation.upper` guards of the slice
case: a present bound is classified, an absent one contributes nothing. -/
def handle_annot_opt : Option Annot → Nat → Nat
  | some a, last_count => handle_annotation_basic a last_count
  | none, last_count => last_count

/-- The `for element in annotation.elts` loop of the tuple/list case. -/
def handle_annot_list : List Annot → Nat → Nat
  | [], last_count => last_count
  | a :: rest, last_count => handle_annot_list rest (handle_annotation_basic a last_count)

end

/-- Textual form of a constant, as the external renderer prints it. -/
def const_repr : ConstVal → String
  | .vNone => "None"
  | .vBool true => "True"
  | .vBool false => "False"
  | .vInt n => toString n
  | .vStr s => "\x27" ++ s ++ "\x27"
  | .vEllipsis => "..."

/-- Textual form of a binary operator (only the union bar matters). -/
def binop_repr : BinOpKind → String
  | .bitOr => " | "
  | .otherOp => " ? "

/-- Textual form of a unary operator. -/
def unop_repr : UnOpKind → String
  | .uSub => "-"
  | .uInvert => "~"
  | .uOther => " ? "

mutual

/-- Model of the external ast.unparse collaborator (the Python standard
library, not code of this repository): a canonical textual rendering of an
annotation expression.  Deviation kept deliberately small: a tuple is always
rendered with parentheses, so a tuple directly under a subscript prints as
Base[(a, b)] where ast.unparse prints Base[a, b]; the head token before the
first opening bracket — the only thing the analyzer extracts from this
string — is identical in both renderings, and no claim inspects the full
rendering.  The anomalous shapes get a simple rendering. -/
def unparse : Annot → String
  | .name id => id
  | .constant v => const_repr v
  | .subscript v s => unparse v ++ "[" ++ unparse s ++ "]"
  | .attrAccess v attr => unparse v ++ "." ++ attr
  | .binOp l op r => unparse l ++ binop_repr op ++ unparse r
  | .call f args => unparse f ++ "(" ++ unparse_join args ++ ")"
  | .slice lo hi stp => unparse_bound lo ++ ":" ++ unparse_bound hi ++ unparse_step stp
  | .tuple elts => "(" ++ unparse_join elts ++ ")"
  | .list elts => "[" ++ unparse_join elts ++ "]"
  | .unaryOp op x => unop_repr op ++ unparse x
  | .boolOp vs => unparse_join vs
  | .dict ks vs => "\x7b" ++ unparse_join ks ++ " : " ++ unparse_join vs ++ "\x7d"
  | .setLit elts => "\x7b" ++ unparse_join elts ++ "\x7d"
  | .ifExp t b o => unparse b ++ " if " ++ unparse t ++ " else " ++ unparse o
  | .lambdaLit b => "lambda: " ++ unparse b
  | .compare l rs => unparse l ++ " ? " ++ unparse_join rs
  | .joinedStr vs => "f" ++ unparse_join vs

/-- Comma-separated rendering of a node list. -/
def unparse_join : List Annot → String
  | [] => ""
  | [a] => unparse a
  | a :: rest => unparse a ++ ", " ++ unparse_join rest

/-- Rendering of an optional slice bound. -/
def unparse_bound : Option Annot → String
  | none => ""
  | some a => unparse a

/-- Rendering of an optional slice step (preceded by a colon). -/
def unparse_step : Option Annot → String
  | none => ""
  | some a => ":" ++ unparse a

end

/-- One step of the sequential splitting in get_base_type: the prefix of the
character list strictly before the first occurrence of the delimiter
(Python s.split(delim)[0]). -/
def split_head (delim : Char) : List Char → List Char
  | [] => []
  | c :: cs => if c = delim then [] else c :: split_head delim cs

/-- The closed vocabulary of built-in / typing qualifiers recognized by
get_base_type, verbatim from the source. -/
def python_types : List String :=
  ["None", "bool", "int", "float", "complex", "str",
   "bytes", "bytearray", "memoryview", "range",
   "tuple", "list", "set", "frozenset", "dict",
   "ellipsis", "...", "type", "object",
   "NoneType", "Any", "Union", "Optional", "Callable",
   "TypeVar", "Generic", "ClassVar", "Final",
   "Literal", "Annotated", "TypedDict", "Protocol",
   "runtime_checkable", "AbstractSet"]

/-- AnnotationAnalyzer.get_base_type: the head token of the rendered
annotation (the prefix before the first of the delimiters, obtained by
splitting at an opening bracket, then at a comma, then at a space), looked
up in the fixed vocabulary, with the ellipsis marker normalized and
everything outside the vocabulary mapped to the sentinel.  A None or empty
input (falsy in Python) yields the empty string. -/
def get_base_type (unparsed_annot : Option String) : String :=
  match unparsed_annot with
  | none => ""
  | some s =>
    if s = "" then ""
    else
      let base_type : String :=
        String.mk (split_head ' ' (split_head ',' (split_head '[' s.data)))
      if base_type ∈ python_types then
        if base_type = "..." then "ellipsis" else base_type
      else "user_defined"

/-- Sequentially splitting at an opening bracket, a comma, and a space keeps
exactly the prefix up to the first occurrence of any of the three
delimiters, whichever occurs first. -/
theorem split_head_chain (l : List Char) :
    split_head ' ' (split_head ',' (split_head '[' l))
      = l.takeWhile (fun c => !(c == '[' || c == ',' || c == ' ')) := by
  induction l with
  | nil => rfl
  | cons c cs ih =>
    by_cases h1 : c = '['
    · subst h1; simp [split_head, List.takeWhile]
    · by_cases h2 : c = ','
      · subst h2; simp [split_head, List.takeWhile]
      · by_cases h3 : c = ' '
        · subst h3; simp [split_head, List.takeWhile]
        · have b1 : (c == '[') = false := by simp [h1]
          have b2 : (c == ',') = false := by simp [h2]
          have b3 : (c == ' ') = false := by simp [h3]
          simp [split_head, h1, h2, h3, List.takeWhile, b1, b2, b3, ih]

/-- The taxonomy enum FuncVarType of the source. -/
inductive FuncVarType where
  | FUNCTION_ARG
  | FUNCTION_RETURN
  | VARIABLE
  deriving DecidableEq

/-- The FuncVar class of the source (the spec's DeclarationSite): one
function or one variable binding site with its completeness counters.  The
counters start at 0 in __init__ and only move through the two increase
methods. -/
structure FuncVar where
  repo_id : Int
  relative_path : String
  name : String
  lineno : Nat
  num_var : Nat
  num_var_annotated : Nat
  deriving DecidableEq

/-- FuncVar.__init__: counters start at zero. -/
def FuncVar.init (repo_id : Int) (rel_path : String) (name : String)
    (lineno : Nat) : FuncVar :=
  ⟨repo_id, rel_path, name, lineno, 0, 0⟩

/-- FuncVar.increase_num_var. -/
def FuncVar.increase_num_var (f : FuncVar) : FuncVar :=
  { f with num_var := f.num_var + 1 }

/-- FuncVar.increase_num_var_annotated. -/
def FuncVar.increase_num_var_annotated (f : FuncVar) : FuncVar :=
  { f with num_var_annotated := f.num_var_annotated + 1 }

/-- The record class of the source that stores one classified annotation
(named after the spec's AnnotationRecord; in the source the class is called
by the corresponding singular noun).  entire_annot holds the rendered text
(entire_annotation in the source). -/
structure AnnotationRecord where
  repo_id : Int
  relative_path : String
  func_var_name : String
  lineno : Nat
  annot_name : String
  func_var_type : FuncVarType
  base_type : String
  entire_annot : String
  count : Nat
  deriving DecidableEq

/-- The mutable state of one AnnotationAnalyzer instance (one per module):
the counters, the shared last_count accumulator, and the three result
lists.  The logger and the progress float of the source are I/O-only and
not modelled. -/
structure AnnotationAnalyzer where
  repo_id : Int
  rel_path : String
  total_annotations : Nat
  last_count : Nat
  funcs_and_vars : List FuncVar
  annotations : List AnnotationRecord
  unannotated_names : List String
  deriving DecidableEq

/-- AnnotationAnalyzer.__init__. -/
def AnnotationAnalyzer.init (repo_id : Int) (rel_path : String) :
    AnnotationAnalyzer :=
  ⟨repo_id, rel_path, 0, 0, [], [], []⟩

/-- AnnotationAnalyzer.completely_handle_annotation, step by step in source
order: increment total_annotations; run handle_annotation_basic on the
shared last_count accumulator; set last_count to 0; build the record whose
count field reads last_count (which the previous line has just zeroed);
append the record. -/
def completely_handle_annot (st : AnnotationAnalyzer) (annot : Annot)
    (func_var_name : String) (lineno : Nat) (fvt : FuncVarType)
    (annot_name : String) : AnnotationAnalyzer :=
  let st1 := { st with total_annotations := st.total_annotations + 1 }
  let st2 := { st1 with last_count := handle_annotation_basic annot st1.last_count }
  let st3 := { st2 with last_count := 0 }
  let record : AnnotationRecord :=
    ⟨st3.repo_id, st3.rel_path, func_var_name, lineno, annot_name, fvt,
     get_base_type (some (unparse annot)), unparse annot, st3.last_count⟩
  { st3 with annotations := st3.annotations ++ [record] }

/-- Expressions in return-statement position, as far as contains_return
inspects them: a constant (whose value may be None) or anything else. -/
inductive SExpr where
  | const (v : ConstVal)
  | nonConst
  deriving DecidableEq

/-- Assignment-target expressions, as far as get_var_name inspects them:
a plain name, an attribute access, a subscripted value, a tuple of targets,
or anything else (e.g. a starred element). -/
inductive TExpr where
  | name (id : String)
  | attrTarget (value : TExpr) (attr : String)
  | subscriptTarget (value : TExpr)
  | tupleTarget (elts : List TExpr)
  | otherTarget

/-- AnnotationAnalyzer.get_var_name: the name of a variable from a target
element (an empty id or attr — falsy in Python — leaves the default empty
name; a subscript recurses into its value; anything else gives ""). -/
def get_var_name : TExpr → String
  | .name id => if id = "" then "" else id
  | .attrTarget _ attr => if attr = "" then "" else attr
  | .subscriptTarget v => get_var_name v
  | _ => ""

/-- Statements of a parsed source unit, restricted to the shapes the walker
reacts to.  functionDef models ast.FunctionDef with its positional
argument list (name and optional annotation per argument — the only
arguments visit_FunctionDef iterates), its optional return annotation and
its body; compound models any statement with nested blocks (If, For,
While, With, ClassDef, Try, ...), whose children generic_visit keeps
traversing; other models any remaining statement. -/
inductive Stmt where
  | functionDef (lineno : Nat) (fname : String)
      (args : List (String × Option Annot)) (returns : Option Annot)
      (body : List Stmt)
  | annAssign (lineno : Nat) (target : TExpr) (ann : Annot)
  | assign (lineno : Nat) (targets : List TExpr)
  | ret (value : Option SExpr)
  | compound (body : List Stmt) (orelse : List Stmt)
  | other

/-- AnnotationAnalyzer.contains_return: scan the statement list (the
direct statements of the function body only) for a return statement whose
value exists and is not the None constant. -/
def contains_return : List Stmt → Bool
  | [] => false
  | .ret (some (.const .vNone)) :: rest => contains_return rest
  | .ret (some _) :: _ => true
  | _ :: rest => contains_return rest

/-- One iteration of the `for arg in node.args.args` loop of
visit_FunctionDef: increment num_var; if the argument carries an
annotation, increment num_var_annotated and classify the annotation as a
FUNCTION_ARG record named after the argument. -/
def handle_func_arg (fname : String) (flineno : Nat)
    (p : FuncVar × AnnotationAnalyzer) (a : String × Option Annot) :
    FuncVar × AnnotationAnalyzer :=
  let func := p.1.increase_num_var
  match a.2 with
  | some ann =>
      (func.increase_num_var_annotated,
       completely_handle_annot p.2 ann fname flineno FuncVarType.FUNCTION_ARG a.1)
  | none => (func, p.2)

/-- The body of AnnotationAnalyzer.visit_FunctionDef before its final
generic_visit: build the FuncVar, process the positional arguments in
order, process the return slot (an annotated return increments both
counters and emits a RETURN record with empty binding name; an
unannotated return slot increments num_var only when the body contains a
value-returning return statement), append all argument names to
unannotated_names when the site came out partially annotated, and append
the FuncVar. -/
def visit_FunctionDef_core (st : AnnotationAnalyzer) (lineno : Nat)
    (fname : String) (args : List (String × Option Annot))
    (returns : Option Annot) (body : List Stmt) : AnnotationAnalyzer :=
  let r := args.foldl (handle_func_arg fname lineno)
    (FuncVar.init st.repo_id st.rel_path fname lineno, st)
  let p2 : FuncVar × AnnotationAnalyzer :=
    match returns with
    | some ra =>
        ((r.1.increase_num_var).increase_num_var_annotated,
         completely_handle_annot r.2 ra fname lineno FuncVarType.FUNCTION_RETURN "")
    | none =>
        (if contains_return body then r.1.increase_num_var else r.1, r.2)
  let st3 :=
    if 0 < p2.1.num_var_annotated ∧ p2.1.num_var_annotated < p2.1.num_var then
      { p2.2 with unannotated_names := p2.2.unannotated_names ++ args.map Prod.fst }
    else p2.2
  { st3 with funcs_and_vars := st3.funcs_and_vars ++ [p2.1] }

/-- AnnotationAnalyzer.visit_AnnAssign: a variable declaration with an
explicit annotation.  The FuncVar (1 binding, 1 annotated) is appended
first, then the annotation is classified as a VARIABLE record; the source
does not call generic_visit here. -/
def visit_AnnAssign (st : AnnotationAnalyzer) (lineno : Nat) (target : TExpr)
    (ann : Annot) : AnnotationAnalyzer :=
  let var_name := get_var_name target
  let var := ((FuncVar.init st.repo_id st.rel_path var_name lineno).increase_num_var).increase_num_var_annotated
  let st1 := { st with funcs_and_vars := st.funcs_and_vars ++ [var] }
  completely_handle_annot st1 ann var_name lineno FuncVarType.VARIABLE var_name

/-- One unannotated assignment target in visit_Assign: a FuncVar with one
binding and no annotation. -/
def assign_target (st : AnnotationAnalyzer) (lineno : Nat) (t : TExpr) :
    AnnotationAnalyzer :=
  let var := (FuncVar.init st.repo_id st.rel_path (get_var_name t) lineno).increase_num_var
  { st with funcs_and_vars := st.funcs_and_vars ++ [var] }

/-- AnnotationAnalyzer.visit_Assign: every target of a plain assignment is
one unannotated binding; a tuple target (multiple assignment) contributes
one binding per element. -/
def visit_Assign (st : AnnotationAnalyzer) (lineno : Nat)
    (targets : List TExpr) : AnnotationAnalyzer :=
  targets.foldl
    (fun st t =>
      match t with
      | .tupleTarget elts => elts.foldl (fun st e => assign_target st lineno e) st
      | _ => assign_target st lineno t)
    st

mutual

/-- Dispatch of ast.NodeVisitor.visit for one statement: the three
overridden visitors fire on their node kinds; visit_FunctionDef and
visit_Assign end with generic_visit, which continues the traversal into
nested statements (an assignment has no statement children, so its
generic_visit adds nothing); visit_AnnAssign does not call generic_visit;
every other statement is traversed generically. -/
def visit_stmt (st : AnnotationAnalyzer) : Stmt → AnnotationAnalyzer
  | .functionDef lineno fname args returns body =>
      visit_body (visit_FunctionDef_core st lineno fname args returns body) body
  | .annAssign lineno target ann => visit_AnnAssign st lineno target ann
  | .assign lineno targets => visit_Assign st lineno targets
  | .ret _ => st
  | .compound body orelse => visit_body (visit_body st body) orelse
  | .other => st

/-- Generic traversal of a statement list (the module body or a nested
block). -/
def visit_body : AnnotationAnalyzer → List Stmt → AnnotationAnalyzer
  | st, [] => st
  | st, s :: rest => visit_body (visit_stmt st s) rest

end

/-- One full walker pass over a parsed module: AnnotationAnalyzer(...) then
visit on the module's statement list (analyze_repository builds the
analyzer and calls visit on the parsed file). -/
def analyze_module (repo_id : Int) (rel_path : String) (body : List Stmt) :
    AnnotationAnalyzer :=
  visit_body (AnnotationAnalyzer.init repo_id rel_path) body

/-- The anomalous annotation shapes: boolean operation, dict literal, set
literal, conditional expression, lambda, comparison, formatted-string
literal — the node kinds the classifier's if/elif chain does not list and
therefore falls through. -/
def is_anomalous : Annot → Bool
  | .boolOp _ => true
  | .dict _ _ => true
  | .setLit _ => true
  | .ifExp _ _ _ => true
  | .lambdaLit _ => true
  | .compare _ _ => true
  | .joinedStr _ => true
  | _ => false

mutual

/-- Modelled from the spec: the independent reference leaf count of the
section 4.1 traversal table — +1 for a simple name or literal constant,
recurse into base and argument of a subscript, into the left value of an
attribute access, into both operands of a binary or, into the callee of a
call only, into the present bounds of a slice, into every element of a
tuple/list literal, into the operand of a unary operation; anything else
contributes 0. -/
def spec_leaf_count : Annot → Nat
  | .name _ => 1
  | .constant _ => 1
  | .subscript v s => spec_leaf_count v + spec_leaf_count s
  | .attrAccess v _ => spec_leaf_count v
  | .binOp l _ r => spec_leaf_count l + spec_leaf_count r
  | .call f _ => spec_leaf_count f
  | .slice lo hi _ => spec_leaf_opt lo + spec_leaf_opt hi
  | .tuple elts => spec_leaf_list elts
  | .list elts => spec_leaf_list elts
  | .unaryOp _ x => spec_leaf_count x
  | _ => 0

/-- Reference count of an optional slice bound. -/
def spec_leaf_opt : Option Annot → Nat
  | none => 0
  | some a => spec_leaf_count a

/-- Reference count of an element list. -/
def spec_leaf_list : List Annot → Nat
  | [] => 0
  | a :: rest => spec_leaf_count a + spec_leaf_list rest

end

mutual

/-- Modelled from the spec: a tree built only from the well-formed shapes
of the section 4.1 table (names, literal constants, subscripts, attribute
accesses, binary-or unions, calls, slices, tuple/list literals, unary
operations) — no anomalous node anywhere in the tree. -/
def well_formed : Annot → Bool
  | .name _ => true
  | .constant _ => true
  | .subscript v s => well_formed v && well_formed s
  | .attrAccess v _ => well_formed v
  | .binOp l _ r => well_formed l && well_formed r
  | .call f args => well_formed f && well_formed_list args
  | .slice lo hi stp =>
      well_formed_opt lo && well_formed_opt hi && well_formed_opt stp
  | .tuple elts => well_formed_list elts
  | .list elts => well_formed_list elts
  | .unaryOp _ x => well_formed x
  | _ => false

/-- Well-formedness of an optional subtree. -/
def well_formed_opt : Option Annot → Bool
  | none => true
  | some a => well_formed a

/-- Well-formedness of every element of a list. -/
def well_formed_list : List Annot → Bool
  | [] => true
  | a :: rest => well_formed a && well_formed_list rest

end

/-- The sum of num_var_annotated over a list of FuncVars (the right-hand
side of the consistency check in analyze_repository). -/
def sum_annotated (l : List FuncVar) : Nat :=
  (l.map (fun f => f.num_var_annotated)).sum

/-- The walker invariant tying the three claims about the traversal state
together: the emitted record list accounts exactly for the summed
annotated-binding counters, the total_annotations counter equals the
number of emitted records, and every recorded site has
num_var_annotated ≤ num_var. -/
def WalkerInv (st : AnnotationAnalyzer) : Prop :=
  st.annotations.length = sum_annotated st.funcs_and_vars ∧
  st.total_annotations = st.annotations.length ∧
  ∀ f ∈ st.funcs_and_vars, f.num_var_annotated ≤ f.num_var

mutual

/-- The classifier run on any accumulator value adds exactly the reference
leaf count of the section 4.1 traversal table. -/
theorem handle_eq_spec : ∀ (a : Annot) (acc : Nat),
    handle_annotation_basic a acc = acc + spec_leaf_count a
  | .name _, acc => by simp [handle_annotation_basic, spec_leaf_count]
  | .constant _, acc => by simp [handle_annotation_basic, spec_leaf_count]
  | .subscript v s, acc => by
      simp only [handle_annotation_basic, spec_leaf_count]
      rw [handle_eq_spec v acc, handle_eq_spec s (acc + spec_leaf_count v)]
      omega
  | .attrAccess v _, acc => by
      simp only [handle_annotation_basic, spec_leaf_count]
      rw [handle_eq_spec v acc]
  | .binOp l _ r, acc => by
      simp only [handle_annotation_basic, spec_leaf_count]
      rw [handle_eq_spec l acc, handle_eq_spec r (acc + spec_leaf_count l)]
      omega
  | .call f _, acc => by
      simp only [handle_annotation_basic, spec_leaf_count]
      rw [handle_eq_spec f acc]
  | .slice lo hi _, acc => by
      simp only [handle_annotation_basic, spec_leaf_count]
      rw [handle_opt_eq_spec lo acc, handle_opt_eq_spec hi (acc + spec_leaf_opt lo)]
      omega
  | .tuple elts, acc => by
      simp only [handle_annotation_basic, spec_leaf_count]
      rw [handle_list_eq_spec elts acc]
  | .list elts, acc => by
      simp only [handle_annotation_basic, spec_leaf_count]
      rw [handle_list_eq_spec elts acc]
  | .unaryOp _ x, acc => by
      simp only [handle_annotation_basic, spec_leaf_count]
      rw [handle_eq_spec x acc]
  | .boolOp _, acc => by simp [handle_annotation_basic, spec_leaf_count]
  | .dict _ _, acc => by simp [handle_annotation_basic, spec_leaf_count]
  | .setLit _, acc => by simp [handle_annotation_basic, spec_leaf_count]
  | .ifExp _ _ _, acc => by simp [handle_annotation_basic, spec_leaf_count]
  | .lambdaLit _, acc => by simp [handle_annotation_basic, spec_leaf_count]
  | .compare _ _, acc => by simp [handle_annotation_basic, spec_leaf_count]
  | .joinedStr _, acc => by simp [handle_annotation_basic, spec_leaf_count]

/-- Optional-bound version of handle_eq_spec. -/
theorem handle_opt_eq_spec : ∀ (o : Option Annot) (acc : Nat),
    handle_annot_opt o acc = acc + spec_leaf_opt o
  | none, acc => by simp [handle_annot_opt, spec_leaf_opt]
  | some a, acc => by
      simp only [handle_annot_opt, spec_leaf_opt]
      rw [handle_eq_spec a acc]

/-- Element-list version of handle_eq_spec. -/
theorem handle_list_eq_spec : ∀ (l : List Annot) (acc : Nat),
    handle_annot_list l acc = acc + spec_leaf_list l
  | [], acc => by simp [handle_annot_list, spec_leaf_list]
  | a :: rest, acc => by
      simp only [handle_annot_list, spec_leaf_list]
      rw [handle_eq_spec a acc, handle_list_eq_spec rest (acc + spec_leaf_count a)]
      omega

end

/-- Claim C2 counterexample: classifying Optional[Union[str, int]] with the
accumulator reset to 0 beforehand yields 4, not the 3 the claim states
(the classifier counts the Optional and Union head names as leaves along
with str and int, as the source's own docstring documents). -/
theorem optional_union_count_not_three :
    handle_annotation_basic
      (.subscript (.name "Optional")
        (.subscript (.name "Union") (.tuple [.name "str", .name "int"]))) 0 ≠ 3 := by
  decide

/-- Claim C2 (amended): classifying the annotation expression
Optional[Union[str, int]] with the accumulator reset to 0 beforehand
yields a leaf count of 4 — the head names Optional and Union are counted
together with the elementary names str and int. -/
theorem optional_union_count_four :
    handle_annotation_basic
      (.subscript (.name "Optional")
        (.subscript (.name "Union") (.tuple [.name "str", .name "int"]))) 0 = 4 := by
  decide

/-- Claim C7: for every anomalous annotation shape (boolean operation, dict
literal, set literal, conditional expression, lambda, comparison,
formatted-string literal — every node kind the classifier's if/elif chain
does not recognize), the classifier leaves the leaf accumulator unchanged,
contributing 0; being a total Lean function it raises nothing. -/
theorem anomalous_shapes_contribute_zero (a : Annot) (acc : Nat)
    (h : is_anomalous a = true) : handle_annotation_basic a acc = acc := by
  cases a <;> simp_all [is_anomalous, handle_annotation_basic]

/-- Witness for C7 at the dict-literal shape with accumulator 5. -/
theorem anomalous_shapes_contribute_zero_witness :
    is_anomalous (Annot.dict [] []) = true ∧
      handle_annotation_basic (Annot.dict [] []) 5 = 5 :=
  ⟨rfl, anomalous_shapes_contribute_zero (Annot.dict [] []) 5 rfl⟩

/-- Claim C8 counterexample: the empty tuple literal is built only from the
well-formed shapes of the section 4.1 table, yet its leaf count is 0 and
not strictly positive. -/
theorem well_formed_count_not_always_positive :
    well_formed (Annot.tuple []) = true ∧
      handle_annotation_basic (Annot.tuple []) 0 = 0 := by
  decide

/-- Claim C8 (amended): for every annotation tree built only from the
well-formed shapes of the section 4.1 table, classifying it with the
accumulator reset to 0 beforehand yields exactly the number of
name/literal leaves reachable by the section 4.1 traversal rules, and the
count is strictly positive exactly when at least one such leaf is
reachable (a leafless well-formed tree, such as an empty tuple/list
literal or a boundless slice, yields 0). -/
theorem well_formed_count_matches_reference (a : Annot)
    (_h : well_formed a = true) :
    handle_annotation_basic a 0 = spec_leaf_count a ∧
      (0 < handle_annotation_basic a 0 ↔ 0 < spec_leaf_count a) := by
  rw [handle_eq_spec a 0]
  simp

/-- Witness for C8 at Optional[Union[str, int]], a well-formed tree with
four reachable leaves. -/
theorem well_formed_count_matches_reference_witness :
    well_formed
        (.subscript (.name "Optional")
          (.subscript (.name "Union") (.tuple [.name "str", .name "int"]))) = true ∧
      handle_annotation_basic
          (.subscript (.name "Optional")
            (.subscript (.name "Union") (.tuple [.name "str", .name "int"]))) 0
        = spec_leaf_count
            (.subscript (.name "Optional")
              (.subscript (.name "Union") (.tuple [.name "str", .name "int"]))) :=
  ⟨rfl,
   (well_formed_count_matches_reference
     (.subscript (.name "Optional")
       (.subscript (.name "Union") (.tuple [.name "str", .name "int"]))) rfl).1⟩

/-- Claim C6: the base-type resolver satisfies the six exact pairs, and on
every string input (being a total function it never fails) it classifies
exactly the head token — the prefix of the input up to the first
occurrence of an opening bracket, a comma, or a space, whichever occurs
first — returning it unchanged when it is in the fixed vocabulary (with
the ellipsis marker normalized) and the sentinel otherwise. -/
theorem resolve_base_type_exact_pairs_and_head_token :
    get_base_type (some "") = "" ∧
    get_base_type (some "int") = "int" ∧
    get_base_type (some "Optional[Union[str, int]]") = "Optional" ∧
    get_base_type (some "Callable[]") = "Callable" ∧
    get_base_type (some "MyCustomClass") = "user_defined" ∧
    get_base_type (some "...") = "ellipsis" ∧
    ∀ s : String,
      get_base_type (some s) =
        if s = "" then ""
        else
          let head : String :=
            String.mk (s.data.takeWhile (fun c => !(c == '[' || c == ',' || c == ' ')))
          if head ∈ python_types then
            if head = "..." then "ellipsis" else head
          else "user_defined" := by
  refine ⟨by decide, by decide, by decide, by decide, by decide, by decide, ?_⟩
  intro s
  simp only [get_base_type, split_head_chain]

/-- Effect of one completely_handle_annotation call on everything but the
record list: the site list, the unannotated-name list and the module
identity are untouched, the counter goes up by one, and the accumulator is
left at 0. -/
theorem completely_handle_annot_state (st : AnnotationAnalyzer) (a : Annot)
    (n : String) (ln : Nat) (fvt : FuncVarType) (an : String) :
    (completely_handle_annot st a n ln fvt an).funcs_and_vars = st.funcs_and_vars ∧
    (completely_handle_annot st a n ln fvt an).unannotated_names = st.unannotated_names ∧
    (completely_handle_annot st a n ln fvt an).total_annotations = st.total_annotations + 1 ∧
    (completely_handle_annot st a n ln fvt an).last_count = 0 ∧
    (completely_handle_annot st a n ln fvt an).repo_id = st.repo_id ∧
    (completely_handle_annot st a n ln fvt an).rel_path = st.rel_path :=
  ⟨rfl, rfl, rfl, rfl, rfl, rfl⟩

/-- Each completely_handle_annotation call appends exactly one record. -/
theorem completely_handle_annot_len (st : AnnotationAnalyzer) (a : Annot)
    (n : String) (ln : Nat) (fvt : FuncVarType) (an : String) :
    (completely_handle_annot st a n ln fvt an).annotations.length
      = st.annotations.length + 1 := by
  simp [completely_handle_annot]

/-- The count field of every record a traversal emits reads the shared
accumulator right after the line that zeroes it, so it is 0. -/
theorem completely_handle_annot_count (st : AnnotationAnalyzer) (a : Annot)
    (n : String) (ln : Nat) (fvt : FuncVarType) (an : String) :
    (completely_handle_annot st a n ln fvt an).annotations.map (fun r => r.count)
      = st.annotations.map (fun r => r.count) ++ [0] := by
  simp [completely_handle_annot]

/-- Combined bookkeeping facts for the argument loop of visit_FunctionDef:
the site list, the unannotated names and the module identity pass through
unchanged; num_var grows by exactly the number of arguments; the records
emitted and the counter increments both match the growth of
num_var_annotated; and the annotated-argument counter can never outgrow
the argument counter. -/
theorem fold_args_spec (fname : String) (flineno : Nat)
    (args : List (String × Option Annot)) (f : FuncVar)
    (st : AnnotationAnalyzer) :
    ((args.foldl (handle_func_arg fname flineno) (f, st)).2.funcs_and_vars
        = st.funcs_and_vars) ∧
    ((args.foldl (handle_func_arg fname flineno) (f, st)).2.unannotated_names
        = st.unannotated_names) ∧
    ((args.foldl (handle_func_arg fname flineno) (f, st)).1.num_var
        = f.num_var + args.length) ∧
    ((args.foldl (handle_func_arg fname flineno) (f, st)).2.annotations.length
          + f.num_var_annotated
        = st.annotations.length
          + (args.foldl (handle_func_arg fname flineno) (f, st)).1.num_var_annotated) ∧
    ((args.foldl (handle_func_arg fname flineno) (f, st)).2.total_annotations
          + st.annotations.length
        = st.total_annotations
          + (args.foldl (handle_func_arg fname flineno) (f, st)).2.annotations.length) ∧
    (f.num_var_annotated ≤ f.num_var →
      (args.foldl (handle_func_arg fname flineno) (f, st)).1.num_var_annotated
        ≤ (args.foldl (handle_func_arg fname flineno) (f, st)).1.num_var) := by
  induction args generalizing f st with
  | nil => simp
  | cons a rest ih =>
    obtain ⟨anm, aopt⟩ := a
    cases aopt with
    | none =>
      have h := ih f.increase_num_var st
      simp only [List.foldl_cons, handle_func_arg] at *
      refine ⟨h.1, h.2.1, ?_, ?_, ?_, ?_⟩
      · rw [h.2.2.1]; simp [FuncVar.increase_num_var]; omega
      · have := h.2.2.2.1
        simp [FuncVar.increase_num_var] at *; omega
      · have := h.2.2.2.2.1
        simp [FuncVar.increase_num_var] at *; omega
      · intro hle
        exact h.2.2.2.2.2 (by simp [FuncVar.increase_num_var]; omega)
    | some ann =>
      have h := ih f.increase_num_var.increase_num_var_annotated
        (completely_handle_annot st ann fname flineno FuncVarType.FUNCTION_ARG anm)
      have hst := completely_handle_annot_state st ann fname flineno
        FuncVarType.FUNCTION_ARG anm
      have hlen := completely_handle_annot_len st ann fname flineno
        FuncVarType.FUNCTION_ARG anm
      simp only [List.foldl_cons, handle_func_arg] at *
      refine ⟨by rw [h.1, hst.1], by rw [h.2.1, hst.2.1], ?_, ?_, ?_, ?_⟩
      · rw [h.2.2.1]
        simp [FuncVar.increase_num_var, FuncVar.increase_num_var_annotated]
        omega
      · have h4 := h.2.2.2.1
        simp [FuncVar.increase_num_var, FuncVar.increase_num_var_annotated,
          hlen] at h4 ⊢
        omega
      · have h5 := h.2.2.2.2.1
        have h4 := h.2.2.2.1
        simp [hlen, hst.2.2.1] at h5 h4 ⊢
        omega
      · intro hle
        exact h.2.2.2.2.2 (by
          simp [FuncVar.increase_num_var, FuncVar.increase_num_var_annotated]
          omega)

/-- Net effect of one visit_FunctionDef (before its generic_visit): exactly
one FuncVar is appended; the records appended match its num_var_annotated;
the total_annotations counter moves in step with the record list; and the
appended site satisfies num_var_annotated ≤ num_var. -/
theorem visit_FunctionDef_core_spec (st : AnnotationAnalyzer) (ln : Nat)
    (fname : String) (args : List (String × Option Annot))
    (rets : Option Annot) (body : List Stmt) :
    ∃ func : FuncVar,
      (visit_FunctionDef_core st ln fname args rets body).funcs_and_vars
          = st.funcs_and_vars ++ [func] ∧
      (visit_FunctionDef_core st ln fname args rets body).annotations.length
          = st.annotations.length + func.num_var_annotated ∧
      (visit_FunctionDef_core st ln fname args rets body).total_annotations
            + st.annotations.length
          = st.total_annotations
            + (visit_FunctionDef_core st ln fname args rets body).annotations.length ∧
      func.num_var_annotated ≤ func.num_var := by
  have hf := fold_args_spec fname ln args
    (FuncVar.init st.repo_id st.rel_path fname ln) st
  set r := args.foldl (handle_func_arg fname ln)
    (FuncVar.init st.repo_id st.rel_path fname ln, st) with hr
  have hle : r.1.num_var_annotated ≤ r.1.num_var :=
    hf.2.2.2.2.2 (by simp [FuncVar.init])
  have hlen : r.2.annotations.length = st.annotations.length + r.1.num_var_annotated := by
    have := hf.2.2.2.1
    simp [FuncVar.init] at this
    omega
  have htot : r.2.total_annotations + st.annotations.length
      = st.total_annotations + r.2.annotations.length := hf.2.2.2.2.1
  cases rets with
  | none =>
    refine ⟨if contains_return body then r.1.increase_num_var else r.1,
      ?_, ?_, ?_, ?_⟩
    · simp only [visit_FunctionDef_core, ← hr]
      simp [apply_ite (fun st : AnnotationAnalyzer => st.funcs_and_vars), hf.1]
    · simp only [visit_FunctionDef_core, ← hr]
      simp [apply_ite (fun st : AnnotationAnalyzer => st.annotations),
        apply_ite (fun f : FuncVar => f.num_var_annotated),
        FuncVar.increase_num_var, hlen]
    · simp only [visit_FunctionDef_core, ← hr]
      simp [apply_ite (fun st : AnnotationAnalyzer => st.annotations),
        apply_ite (fun st : AnnotationAnalyzer => st.total_annotations), htot]
    · simp [apply_ite (fun f : FuncVar => f.num_var_annotated),
        apply_ite (fun f : FuncVar => f.num_var), FuncVar.increase_num_var]
      split_ifs <;> omega
  | some ra =>
    refine ⟨(r.1.increase_num_var).increase_num_var_annotated, ?_, ?_, ?_, ?_⟩
    · simp only [visit_FunctionDef_core, ← hr]
      simp [apply_ite (fun st : AnnotationAnalyzer => st.funcs_and_vars),
        (completely_handle_annot_state r.2 ra fname ln FuncVarType.FUNCTION_RETURN "").1,
        hf.1]
    · simp only [visit_FunctionDef_core, ← hr]
      simp [apply_ite (fun st : AnnotationAnalyzer => st.annotations),
        completely_handle_annot_len, FuncVar.increase_num_var,
        FuncVar.increase_num_var_annotated, hlen]
      omega
    · simp only [visit_FunctionDef_core, ← hr]
      simp [apply_ite (fun st : AnnotationAnalyzer => st.annotations),
        apply_ite (fun st : AnnotationAnalyzer => st.total_annotations),
        completely_handle_annot_len,
        (completely_handle_annot_state r.2 ra fname ln FuncVarType.FUNCTION_RETURN "").2.2.1]
      omega
    · simp [FuncVar.increase_num_var, FuncVar.increase_num_var_annotated]
      omega

/-- Net effect of visit_AnnAssign: one fully annotated single-binding site
is appended, one record is emitted, the counter moves by one, and the
unannotated-name list is untouched. -/
theorem visit_AnnAssign_spec (st : AnnotationAnalyzer) (ln : Nat)
    (t : TExpr) (a : Annot) :
    (visit_AnnAssign st ln t a).funcs_and_vars
        = st.funcs_and_vars
          ++ [((FuncVar.init st.repo_id st.rel_path (get_var_name t) ln).increase_num_var).increase_num_var_annotated] ∧
    (visit_AnnAssign st ln t a).annotations.length = st.annotations.length + 1 ∧
    (visit_AnnAssign st ln t a).total_annotations = st.total_annotations + 1 ∧
    (visit_AnnAssign st ln t a).unannotated_names = st.unannotated_names := by
  refine ⟨?_, ?_, ?_, ?_⟩ <;>
    simp [visit_AnnAssign, completely_handle_annot]

/-- Net effect of recording one unannotated assignment target. -/
theorem assign_target_spec (st : AnnotationAnalyzer) (ln : Nat) (t : TExpr) :
    (assign_target st ln t).funcs_and_vars
        = st.funcs_and_vars
          ++ [(FuncVar.init st.repo_id st.rel_path (get_var_name t) ln).increase_num_var] ∧
    (assign_target st ln t).annotations = st.annotations ∧
    (assign_target st ln t).total_annotations = st.total_annotations ∧
    (assign_target st ln t).unannotated_names = st.unannotated_names ∧
    (assign_target st ln t).repo_id = st.repo_id ∧
    (assign_target st ln t).rel_path = st.rel_path :=
  ⟨rfl, rfl, rfl, rfl, rfl, rfl⟩

/-- The inner loop of visit_Assign over the elements of one tuple target:
only unannotated single-binding sites are appended. -/
theorem assign_fold_spec (ln : Nat) (elts : List TExpr)
    (st : AnnotationAnalyzer) :
    ∃ new : List FuncVar,
      ((elts.foldl (fun st e => assign_target st ln e) st).funcs_and_vars
          = st.funcs_and_vars ++ new) ∧
      (∀ f ∈ new, f.num_var_annotated = 0) ∧
      ((elts.foldl (fun st e => assign_target st ln e) st).annotations
          = st.annotations) ∧
      ((elts.foldl (fun st e => assign_target st ln e) st).total_annotations
          = st.total_annotations) ∧
      ((elts.foldl (fun st e => assign_target st ln e) st).unannotated_names
          = st.unannotated_names) := by
  induction elts generalizing st with
  | nil => exact ⟨[], by simp⟩
  | cons e rest ih =>
    obtain ⟨new, h1, h2, h3, h4, h5⟩ := ih (assign_target st ln e)
    refine ⟨(FuncVar.init st.repo_id st.rel_path (get_var_name e) ln).increase_num_var
        :: new, ?_, ?_, ?_, ?_, ?_⟩
    · simp only [List.foldl_cons, h1, (assign_target_spec st ln e).1]
      simp
    · intro f hfm
      rcases List.mem_cons.mp hfm with hfe | hfn
      · subst hfe; simp [FuncVar.init, FuncVar.increase_num_var]
      · exact h2 f hfn
    · simp only [List.foldl_cons, h3, (assign_target_spec st ln e).2.1]
    · simp only [List.foldl_cons, h4, (assign_target_spec st ln e).2.2.1]
    · simp only [List.foldl_cons, h5, (assign_target_spec st ln e).2.2.2.1]

/-- Net effect of visit_Assign: every appended site is unannotated and no
record, counter change or unannotated name is produced. -/
theorem visit_Assign_spec (ln : Nat) (targets : List TExpr)
    (st : AnnotationAnalyzer) :
    ∃ new : List FuncVar,
      ((visit_Assign st ln targets).funcs_and_vars = st.funcs_and_vars ++ new) ∧
      (∀ f ∈ new, f.num_var_annotated = 0) ∧
      ((visit_Assign st ln targets).annotations = st.annotations) ∧
      ((visit_Assign st ln targets).total_annotations = st.total_annotations) ∧
      ((visit_Assign st ln targets).unannotated_names = st.unannotated_names) := by
  induction targets generalizing st with
  | nil => exact ⟨[], by simp [visit_Assign]⟩
  | cons t rest ih =>
    by_cases htup : ∃ elts, t = TExpr.tupleTarget elts
    · obtain ⟨elts, rfl⟩ := htup
      have hrw : visit_Assign st ln (TExpr.tupleTarget elts :: rest)
          = visit_Assign (elts.foldl (fun st e => assign_target st ln e) st) ln rest := rfl
      obtain ⟨sn, s1, s2, s3, s4, s5⟩ := assign_fold_spec ln elts st
      obtain ⟨new, h1, h2, h3, h4, h5⟩ :=
        ih (elts.foldl (fun st e => assign_target st ln e) st)
      refine ⟨sn ++ new, ?_, ?_, ?_, ?_, ?_⟩
      · rw [hrw, h1, s1, List.append_assoc]
      · intro f hf
        rcases List.mem_append.mp hf with hs | hn
        · exact s2 f hs
        · exact h2 f hn
      · rw [hrw, h3, s3]
      · rw [hrw, h4, s4]
      · rw [hrw, h5, s5]
    · have hrw : visit_Assign st ln (t :: rest)
          = visit_Assign (assign_target st ln t) ln rest := by
        cases t
        case tupleTarget elts => exact absurd ⟨elts, rfl⟩ htup
        all_goals rfl
      obtain ⟨new, h1, h2, h3, h4, h5⟩ := ih (assign_target st ln t)
      refine ⟨(FuncVar.init st.repo_id st.rel_path (get_var_name t) ln).increase_num_var
          :: new, ?_, ?_, ?_, ?_, ?_⟩
      · rw [hrw, h1, (assign_target_spec st ln t).1]
        simp
      · intro f hf
        rcases List.mem_cons.mp hf with he | hn
        · subst he; simp [FuncVar.init, FuncVar.increase_num_var]
        · exact h2 f hn
      · rw [hrw, h3, (assign_target_spec st ln t).2.1]
      · rw [hrw, h4, (assign_target_spec st ln t).2.2.1]
      · rw [hrw, h5, (assign_target_spec st ln t).2.2.2.1]

/-- Summing num_var_annotated distributes over appending one site. -/
theorem sum_annotated_append (l : List FuncVar) (f : FuncVar) :
    sum_annotated (l ++ [f]) = sum_annotated l + f.num_var_annotated := by
  simp [sum_annotated]

/-- A batch of sites with zero annotated bindings adds nothing to the sum. -/
theorem sum_annotated_zero (l : List FuncVar)
    (h : ∀ f ∈ l, f.num_var_annotated = 0) : sum_annotated l = 0 := by
  induction l with
  | nil => simp [sum_annotated]
  | cons f rest ih =>
    have hf := h f (by simp)
    have hr := ih (fun g hg => h g (by simp [hg]))
    simp [sum_annotated] at hr ⊢
    exact ⟨hf, hr⟩

/-- Summing num_var_annotated distributes over list append. -/
theorem sum_annotated_append_list (l1 l2 : List FuncVar) :
    sum_annotated (l1 ++ l2) = sum_annotated l1 + sum_annotated l2 := by
  simp [sum_annotated]

/-- visit_FunctionDef preserves the walker invariant. -/
theorem core_preserves (st : AnnotationAnalyzer) (ln : Nat) (n : String)
    (args : List (String × Option Annot)) (rets : Option Annot)
    (body : List Stmt) (h : WalkerInv st) :
    WalkerInv (visit_FunctionDef_core st ln n args rets body) := by
  obtain ⟨func, h1, h2, h3, h4⟩ := visit_FunctionDef_core_spec st ln n args rets body
  obtain ⟨i1, i2, i3⟩ := h
  refine ⟨?_, ?_, ?_⟩
  · rw [h2, h1, sum_annotated_append, i1]
  · omega
  · intro f hf
    rw [h1] at hf
    rcases List.mem_append.mp hf with hl | hr
    · exact i3 f hl
    · rw [List.mem_singleton.mp hr]
      exact h4

/-- visit_AnnAssign preserves the walker invariant. -/
theorem annassign_preserves (st : AnnotationAnalyzer) (ln : Nat) (t : TExpr)
    (a : Annot) (h : WalkerInv st) : WalkerInv (visit_AnnAssign st ln t a) := by
  obtain ⟨h1, h2, h3, h4⟩ := visit_AnnAssign_spec st ln t a
  obtain ⟨i1, i2, i3⟩ := h
  refine ⟨?_, ?_, ?_⟩
  · rw [h2, h1, sum_annotated_append, i1]
    simp [FuncVar.init, FuncVar.increase_num_var, FuncVar.increase_num_var_annotated]
  · omega
  · intro f hf
    rw [h1] at hf
    rcases List.mem_append.mp hf with hl | hr
    · exact i3 f hl
    · rw [List.mem_singleton.mp hr]
      simp [FuncVar.init, FuncVar.increase_num_var, FuncVar.increase_num_var_annotated]

/-- visit_Assign preserves the walker invariant. -/
theorem assign_preserves (ln : Nat) (targets : List TExpr)
    (st : AnnotationAnalyzer) (h : WalkerInv st) :
    WalkerInv (visit_Assign st ln targets) := by
  obtain ⟨new, h1, h2, h3, h4, h5⟩ := visit_Assign_spec ln targets st
  obtain ⟨i1, i2, i3⟩ := h
  refine ⟨?_, ?_, ?_⟩
  · rw [h3, h1, sum_annotated_append_list, sum_annotated_zero new h2, i1]
    omega
  · rw [h4, h3, i2]
  · intro f hf
    rw [h1] at hf
    rcases List.mem_append.mp hf with hl | hr
    · exact i3 f hl
    · rw [h2 f hr]
      exact Nat.zero_le _

mutual

/-- Every single visitor step preserves the walker invariant. -/
theorem visit_stmt_inv : ∀ (st : AnnotationAnalyzer) (s : Stmt),
    WalkerInv st → WalkerInv (visit_stmt st s)
  | st, .functionDef ln n args rets body, h =>
      visit_body_inv (visit_FunctionDef_core st ln n args rets body) body
        (core_preserves st ln n args rets body h)
  | st, .annAssign ln t a, h => annassign_preserves st ln t a h
  | st, .assign ln ts, h => assign_preserves ln ts st h
  | _, .ret _, h => h
  | st, .compound body orelse, h =>
      visit_body_inv (visit_body st body) orelse (visit_body_inv st body h)
  | _, .other, h => h

/-- Traversing any statement list preserves the walker invariant. -/
theorem visit_body_inv : ∀ (st : AnnotationAnalyzer) (l : List Stmt),
    WalkerInv st → WalkerInv (visit_body st l)
  | _, [], h => h
  | st, s :: rest, h =>
      visit_body_inv (visit_stmt st s) rest (visit_stmt_inv st s h)

end

/-- The freshly initialized analyzer satisfies the walker invariant. -/
theorem init_inv (repo_id : Int) (rel_path : String) :
    WalkerInv (AnnotationAnalyzer.init repo_id rel_path) := by
  refine ⟨rfl, rfl, ?_⟩
  intro f hf
  simp [AnnotationAnalyzer.init] at hf

/-- contains_return finds exactly the direct return statements whose value
is present and is not the None literal. -/
theorem contains_return_iff (body : List Stmt) :
    contains_return body = true ↔
      ∃ v : SExpr, Stmt.ret (some v) ∈ body ∧ v ≠ SExpr.const ConstVal.vNone := by
  induction body with
  | nil => simp [contains_return]
  | cons s rest ih =>
    cases s with
    | ret ov =>
      cases ov with
      | none => simp [contains_return, ih]
      | some v =>
        cases v with
        | const cv =>
          cases cv with
          | vNone => simp [contains_return, ih]
          | vBool b =>
            simp only [contains_return, true_iff]
            exact ⟨.const (.vBool b), by simp⟩
          | vInt n =>
            simp only [contains_return, true_iff]
            exact ⟨.const (.vInt n), by simp⟩
          | vStr s =>
            simp only [contains_return, true_iff]
            exact ⟨.const (.vStr s), by simp⟩
          | vEllipsis =>
            simp only [contains_return, true_iff]
            exact ⟨.const .vEllipsis, by simp⟩
        | nonConst =>
          simp only [contains_return, true_iff]
          exact ⟨.nonConst, by simp⟩
    | functionDef ln n args rets fbody => simp [contains_return, ih]
    | annAssign ln t a => simp [contains_return, ih]
    | assign ln ts => simp [contains_return, ih]
    | compound b o => simp [contains_return, ih]
    | other => simp [contains_return, ih]

/-- Claim C1 (evaluation of the code at a failing input): the walker
processing the annotated assignment x: int records a leaf count of 0,
while one classification pass over the annotation from a zeroed
accumulator yields 1 — completely_handle_annotation zeroes the shared
accumulator after classifying but before reading it into the record, so
the recorded count never equals the value the pass accumulated. -/
theorem recorded_count_is_zero_not_pass_value :
    (analyze_module 0 "m" [.annAssign 1 (.name "x") (.name "int")]).annotations.map
        (fun r => r.count) = [0] ∧
      handle_annotation_basic (.name "int") 0 = 1 :=
  ⟨by decide, rfl⟩

/-- Claim C3: for every parsed source unit, after a complete traversal the
number of emitted AnnotationRecords equals the sum of num_var_annotated
over all FuncVars produced for that unit. -/
theorem records_eq_sum_annotated (repo_id : Int) (rel_path : String)
    (body : List Stmt) :
    (analyze_module repo_id rel_path body).annotations.length
      = sum_annotated (analyze_module repo_id rel_path body).funcs_and_vars :=
  (visit_body_inv (AnnotationAnalyzer.init repo_id rel_path) body
    (init_inv repo_id rel_path)).1

/-- Claim C4 counterexample: for def f(x): if x: return 1 — a function
with no return annotation whose body contains a value-returning return
statement, nested inside the if block — the walker does NOT count the
return slot: contains_return scans only the direct statements of the
body, so num_var stays at the argument count 1.  This refutes the claim
as stated, whose "the function body contains at least one return
statement returning a non-null value" covers nested returns. -/
theorem nested_value_return_slot_not_counted :
    Stmt.ret (some SExpr.nonConst) ∈ [Stmt.ret (some SExpr.nonConst)] ∧
    SExpr.nonConst ≠ SExpr.const ConstVal.vNone ∧
    contains_return [Stmt.compound [Stmt.ret (some SExpr.nonConst)] []] = false ∧
    (analyze_module 0 "m"
        [.functionDef 1 "f" [("x", none)] none
          [.compound [.ret (some .nonConst)] []]]).funcs_and_vars.map
        (fun f => f.num_var) = [1] :=
  ⟨by simp, by simp, rfl, by decide⟩

/-- Claim C4 (amended): for a function declaration whose return slot
carries no annotation, the produced site counts the return slot in
num_var exactly when the DIRECT statement list of the function body
contains a return statement with a present value that is not the None
literal — a bare return or an explicit return None does not cause the
increment, and returns nested inside compound statements (if/for/while/
with/try blocks) are not inspected. -/
theorem return_slot_counted_iff_value_return (st : AnnotationAnalyzer)
    (ln : Nat) (fname : String) (args : List (String × Option Annot))
    (body : List Stmt) :
    ∃ func : FuncVar,
      (visit_FunctionDef_core st ln fname args none body).funcs_and_vars
          = st.funcs_and_vars ++ [func] ∧
      func.num_var = args.length + (if contains_return body then 1 else 0) ∧
      (contains_return body = true ↔
        ∃ v : SExpr, Stmt.ret (some v) ∈ body ∧ v ≠ SExpr.const ConstVal.vNone) := by
  have hf := fold_args_spec fname ln args
    (FuncVar.init st.repo_id st.rel_path fname ln) st
  set r := args.foldl (handle_func_arg fname ln)
    (FuncVar.init st.repo_id st.rel_path fname ln, st) with hr
  refine ⟨if contains_return body then r.1.increase_num_var else r.1,
    ?_, ?_, contains_return_iff body⟩
  · simp only [visit_FunctionDef_core, ← hr]
    simp [apply_ite (fun st : AnnotationAnalyzer => st.funcs_and_vars), hf.1]
  · have h3 := hf.2.2.1
    simp [FuncVar.init] at h3
    simp [apply_ite (fun f : FuncVar => f.num_var), FuncVar.increase_num_var, h3]
    split_ifs <;> omega

/-- Claim C5 (evaluation of the code at a failing input): for the
partially annotated function def f(a: int, b): return 1 — one annotated
argument out of three countable bindings — the walker surfaces BOTH
argument names, the annotated a included, because the partial-annotation
branch appends every argument name without checking for an annotation. -/
theorem half_annotated_function_surfaces_all_names :
    (analyze_module 0 "m"
        [.functionDef 1 "f" [("a", some (.name "int")), ("b", none)] none
          [.ret (some .nonConst)]]).unannotated_names = ["a", "b"] := by
  decide

/-- Claim C9: every FuncVar produced by any walker operation satisfies
0 ≤ num_var_annotated ≤ num_var at the end of the traversal. -/
theorem annotated_le_total_bindings (repo_id : Int) (rel_path : String)
    (body : List Stmt) (f : FuncVar)
    (hf : f ∈ (analyze_module repo_id rel_path body).funcs_and_vars) :
    0 ≤ f.num_var_annotated ∧ f.num_var_annotated ≤ f.num_var :=
  ⟨Nat.zero_le _,
   (visit_body_inv (AnnotationAnalyzer.init repo_id rel_path) body
     (init_inv repo_id rel_path)).2.2 f hf⟩

/-- Witness for C9 on the module consisting of the plain assignment x = 1,
whose produced site has one binding and no annotated binding. -/
theorem annotated_le_total_bindings_witness :
    (⟨0, "m", "x", 1, 1, 0⟩ : FuncVar) ∈
        (analyze_module 0 "m" [.assign 1 [.name "x"]]).funcs_and_vars ∧
      (0 ≤ (⟨0, "m", "x", 1, 1, 0⟩ : FuncVar).num_var_annotated ∧
        (⟨0, "m", "x", 1, 1, 0⟩ : FuncVar).num_var_annotated
          ≤ (⟨0, "m", "x", 1, 1, 0⟩ : FuncVar).num_var) :=
  ⟨by decide,
   annotated_le_total_bindings 0 "m" [.assign 1 [.name "x"]]
     (⟨0, "m", "x", 1, 1, 0⟩ : FuncVar) (by decide)⟩

/-- Claim C10: after any traversal, total_annotations equals the number of
emitted records, and every single completely_handle_annotation call
increments the counter by exactly one and appends exactly one record. -/
theorem total_annotations_matches_records (repo_id : Int) (rel_path : String)
    (body : List Stmt) :
    ((analyze_module repo_id rel_path body).total_annotations
        = (analyze_module repo_id rel_path body).annotations.length) ∧
    ∀ (st : AnnotationAnalyzer) (a : Annot) (n : String) (ln : Nat)
        (fvt : FuncVarType) (an : String),
      (completely_handle_annot st a n ln fvt an).total_annotations
          = st.total_annotations + 1 ∧
      (completely_handle_annot st a n ln fvt an).annotations.length
          = st.annotations.length + 1 :=
  ⟨(visit_body_inv (AnnotationAnalyzer.init repo_id rel_path) body
      (init_inv repo_id rel_path)).2.1,
   fun st a n ln fvt an =>
     ⟨(completely_handle_annot_state st a n ln fvt an).2.2.1,
      completely_handle_annot_len st a n ln fvt an⟩⟩
